import Mathlib

/-
Verification of the LeafLens multi-view raster pipeline (`LeafCanvas`,
`src/unnamed/part_000`, the `img.onload` render body) against its
natural-language specification.

The pipeline is shallowly embedded here: the flat RGBA `ImageData.data`
array becomes a `List ℤ` of channel bytes, JavaScript float arithmetic is
idealized as real arithmetic, and every store into a `Uint8ClampedArray`
is modelled by `toByte` (round to nearest, ties to even, clamp to
[0, 255]) exactly as the WebIDL clamped conversion prescribes.
-/

set_option maxHeartbeats 1000000

namespace LeafLens

/-- The closed 13-variant view selector from `types.ts` (`ViewType`). -/
inductive ViewType where
  | ORIGINAL
  | GRAYSCALE
  | SKELETON
  | HEATMAP
  | BLUEPRINT
  | XRAY
  | ECO
  | BINARY
  | HSV
  | GRADIENT_MAGNITUDE
  | GRADIENT_DIRECTION
  | ZERO_CROSSING
  | WAVELET
  | FEATURE_MAP
  deriving DecidableEq

/-- A decoded image: `width`, `height`, and the flat row-major RGBA channel
array (`ImageData.data`), one integer byte per channel. -/
structure RasterBuffer where
  width : ℕ
  height : ℕ
  data : List ℤ
  deriving DecidableEq

/-- Well-formed buffer: the flat array has length `4*width*height` and every
channel byte is in `[0, 255]` (as `getImageData` guarantees). -/
def RasterBuffer.Wf (S : RasterBuffer) : Prop :=
  S.data.length = 4 * (S.width * S.height) ∧ ∀ v ∈ S.data, 0 ≤ v ∧ v ≤ 255

instance (S : RasterBuffer) : Decidable S.Wf := by
  unfold RasterBuffer.Wf; infer_instance

/-- `getPixelIndex` (lines 40-44): clamp `x` to `[0, width-1]` and `y` to
`[0, height-1]` independently, then return the flat index of the clamped
coordinate. -/
def getPixelIndex (width height : ℕ) (x y : ℤ) : ℕ :=
  let cx := max 0 (min ((width : ℤ) - 1) x)
  let cy := max 0 (min ((height : ℤ) - 1) y)
  ((cy * (width : ℤ) + cx) * 4).toNat

/-- Read one channel byte of the flat array as a real number (in-range
indices are the only ones that occur for well-formed buffers). -/
def dAt (data : List ℤ) (i : ℕ) : ℝ := ((data.getD i 0 : ℤ) : ℝ)

/-- `getGray` (lines 47-49): ITU-R 601 luminance of the pixel starting at
flat index `i`. -/
noncomputable def getGray (data : List ℤ) (i : ℕ) : ℝ :=
  0.299 * dAt data i + 0.587 * dAt data (i + 1) + 0.114 * dAt data (i + 2)

/-- JavaScript `Uint8ClampedArray` rounding: nearest integer, ties to even. -/
noncomputable def jsRound (v : ℝ) : ℤ :=
  if Int.fract v = 1 / 2 then (if Even ⌊v⌋ then ⌊v⌋ else ⌊v⌋ + 1) else round v

/-- One store into a `Uint8ClampedArray`: round (ties to even), clamp to
`[0, 255]`. -/
noncomputable def toByte (v : ℝ) : ℤ := max 0 (min 255 (jsRound v))

/-- One iteration of the per-pixel filter loop (lines 56-125): from the
pixel's channel bytes `r g b a`, produce the four bytes written back for
view `t`.  The loop reads only `data[i..i+2]` of its own pixel before
overwriting, and never touches `data[i+3]`, so it is a per-pixel map that
leaves the alpha byte `a` unchanged. -/
noncomputable def pointPixel (t : ViewType) (r g b a : ℤ) : List ℤ :=
  let rR : ℝ := (r : ℝ)
  let gR : ℝ := (g : ℝ)
  let bR : ℝ := (b : ℝ)
  let avg : ℝ := 0.299 * rR + 0.587 * gR + 0.114 * bR
  match t with
  | ViewType.GRAYSCALE => [toByte avg, toByte avg, toByte avg, a]
  | ViewType.BINARY =>
      let val : ℝ := if 128 < avg then 255 else 0
      [toByte val, toByte val, toByte val, a]
  | ViewType.HEATMAP =>
      let val : ℝ := avg / 255
      let newB : ℝ := if val < 0.5 then 255 * (1 - 2 * val) else 0
      let newG : ℝ := if val < 0.5 then 255 * 2 * val else 255 * (2 - 2 * val)
      let newR : ℝ := if val < 0.5 then 0 else 255 * (2 * val - 1)
      [toByte newR, toByte newG, toByte newB, a]
  | ViewType.XRAY =>
      let inverted : ℝ := 255 - avg
      let contrast : ℝ := (inverted - 128) * 2 + 128
      [toByte contrast, toByte contrast, toByte contrast, a]
  | ViewType.ECO => [toByte (rR * 0.8), toByte (gR * 1.2), toByte (bR * 0.8), a]
  | ViewType.HSV =>
      let rN : ℝ := rR / 255
      let gN : ℝ := gR / 255
      let bN : ℝ := bR / 255
      let maxv : ℝ := max rN (max gN bN)
      let minv : ℝ := min rN (min gN bN)
      let d : ℝ := maxv - minv
      let s : ℝ := if maxv = 0 then 0 else d / maxv
      let h1 : ℝ :=
        if maxv = rN then (gN - bN) / d + (if gN < bN then 6 else 0)
        else if maxv = gN then (bN - rN) / d + 2
        else if maxv = bN then (rN - gN) / d + 4
        else 0
      let h : ℝ := if maxv = minv then 0 else h1 / 6
      [toByte (h * 255), toByte (s * 255), toByte (maxv * 255), a]
  | _ => [r, g, b, a]

/-- The per-pixel filter loop itself (`for i in 0..len step 4`); a trailing
fragment of fewer than four bytes (impossible for well-formed data) is left
unchanged. -/
noncomputable def pointData (t : ViewType) : List ℤ → List ℤ
  | r :: g :: b :: a :: rest => pointPixel t r g b a ++ pointData t rest
  | [] => []
  | [r] => [r]
  | [r, g] => [r, g]
  | [r, g, b] => [r, g, b]

/-- Sobel horizontal response `gx` at `(x, y)` (line 256). -/
noncomputable def sobelGx (w h : ℕ) (src : List ℤ) (x y : ℤ) : ℝ :=
  -1 * getGray src (getPixelIndex w h (x - 1) (y - 1))
    + 1 * getGray src (getPixelIndex w h (x + 1) (y - 1))
    + -2 * getGray src (getPixelIndex w h (x - 1) y)
    + 2 * getGray src (getPixelIndex w h (x + 1) y)
    + -1 * getGray src (getPixelIndex w h (x - 1) (y + 1))
    + 1 * getGray src (getPixelIndex w h (x + 1) (y + 1))

/-- Sobel vertical response `gy` at `(x, y)` (line 257). -/
noncomputable def sobelGy (w h : ℕ) (src : List ℤ) (x y : ℤ) : ℝ :=
  -1 * getGray src (getPixelIndex w h (x - 1) (y - 1))
    + -2 * getGray src (getPixelIndex w h (x) (y - 1))
    + -1 * getGray src (getPixelIndex w h (x + 1) (y - 1))
    + 1 * getGray src (getPixelIndex w h (x - 1) (y + 1))
    + 2 * getGray src (getPixelIndex w h (x) (y + 1))
    + 1 * getGray src (getPixelIndex w h (x + 1) (y + 1))

/-- Sobel gradient magnitude `sqrt(gx^2 + gy^2)` (lines 260, 305). -/
noncomputable def sobelMagnitude (w h : ℕ) (src : List ℤ) (x y : ℤ) : ℝ :=
  Real.sqrt (sobelGx w h src x y * sobelGx w h src x y
    + sobelGy w h src x y * sobelGy w h src x y)

/-- `Math.atan2(y, x)`: the argument of the complex number `x + y i`. -/
noncomputable def atan2 (y x : ℝ) : ℝ := Complex.arg ⟨x, y⟩

/-- The 3x3 window offsets `(kx, ky)` of the feature-map loop, in loop
order (`ky` outer from -1 to 1, `kx` inner). -/
def kernelOffsets : List (ℤ × ℤ) :=
  [(-1, -1), (0, -1), (1, -1), (-1, 0), (0, 0), (1, 0), (-1, 1), (0, 1), (1, 1)]

/-- Body of the convolution loop (lines 192-317): the four bytes written at
pixel `(x, y)` for the non-wavelet structural views. -/
noncomputable def convPixel (t : ViewType) (w h : ℕ) (src : List ℤ) (x y : ℤ) : List ℤ :=
  if t = ViewType.FEATURE_MAP then
    let vals := kernelOffsets.map
      (fun o => getGray src (getPixelIndex w h (x + o.1) (y + o.2)))
    let sum : ℝ := vals.sum
    let sqSum : ℝ := (vals.map (fun v => v * v)).sum
    let count : ℝ := (vals.length : ℝ)
    let mean : ℝ := sum / count
    let variance : ℝ := sqSum / count - mean * mean
    let displayVal : ℝ := min 255 (Real.sqrt variance * 4)
    [toByte displayVal, toByte (displayVal * 0.8), toByte (255 - displayVal), 255]
  else if t = ViewType.ZERO_CROSSING then
    let n : ℝ := getGray src (getPixelIndex w h x (y - 1))
    let wv : ℝ := getGray src (getPixelIndex w h (x - 1) y)
    let c : ℝ := getGray src (getPixelIndex w h x y)
    let e : ℝ := getGray src (getPixelIndex w h (x + 1) y)
    let s : ℝ := getGray src (getPixelIndex w h x (y + 1))
    let laplacian : ℝ := n + wv + e + s - 4 * c
    let val : ℝ := max 0 (min 255 (128 + laplacian * 2))
    [toByte val, toByte val, toByte val, 255]
  else
    let gx : ℝ := sobelGx w h src x y
    let gy : ℝ := sobelGy w h src x y
    if t = ViewType.GRADIENT_MAGNITUDE ∨ t = ViewType.SKELETON ∨ t = ViewType.BLUEPRINT then
      let magnitude : ℝ := Real.sqrt (gx * gx + gy * gy)
      if t = ViewType.SKELETON then
        let val : ℝ := if 50 < magnitude then magnitude else 0
        [toByte val, toByte val, toByte val, 255]
      else if t = ViewType.BLUEPRINT then
        let val : ℝ := if 30 < magnitude then 255 else 0
        if 0 < val then [toByte 255, toByte 255, toByte 255, 255]
        else [toByte 30, toByte 64, toByte 175, 255]
      else
        [toByte magnitude, toByte magnitude, toByte magnitude, 255]
    else if t = ViewType.GRADIENT_DIRECTION then
      let angle : ℝ := atan2 gy gx
      let normalizedAngle : ℝ := (angle + Real.pi) / (2 * Real.pi)
      let s : ℝ := 1
      let v : ℝ := 1
      let iH : ℤ := ⌊normalizedAngle * 6⌋
      let f : ℝ := normalizedAngle * 6 - (iH : ℝ)
      let p : ℝ := v * (1 - s)
      let q : ℝ := v * (1 - f * s)
      let tv : ℝ := v * (1 - (1 - f) * s)
      let rgb : ℝ × ℝ × ℝ :=
        if Int.tmod iH 6 = 0 then (v, tv, p)
        else if Int.tmod iH 6 = 1 then (q, v, p)
        else if Int.tmod iH 6 = 2 then (p, v, tv)
        else if Int.tmod iH 6 = 3 then (p, q, v)
        else if Int.tmod iH 6 = 4 then (tv, p, v)
        else if Int.tmod iH 6 = 5 then (v, p, q)
        else (0, 0, 0)
      let magnitude : ℝ := Real.sqrt (gx * gx + gy * gy)
      let rgb2 : ℝ × ℝ × ℝ := if magnitude < 20 then (0, 0, 0) else rgb
      [toByte (rgb2.1 * 255), toByte (rgb2.2.1 * 255), toByte (rgb2.2.2 * 255), 255]
    else
      -- unreachable for the seven convolution selectors; the output pixel
      -- would keep the `createImageData` zero initialization
      [0, 0, 0, 0]

/-- The convolution double loop (`for y ... for x ...`), row-major. -/
noncomputable def convData (t : ViewType) (w h : ℕ) (src : List ℤ) : List ℤ :=
  (List.range h).flatMap
    (fun y => (List.range w).flatMap (fun x => convPixel t w h src (x : ℤ) (y : ℤ)))

/-- The even loop indices `0, 2, 4, ...` below `n` (the wavelet loops step
by 2). -/
def evens (n : ℕ) : List ℕ := (List.range n).filter (fun k => k % 2 = 0)

/-- The wavelet block origins `(x, y)` in loop order (`y` outer, `x` inner,
both stepping by 2). -/
def waveletBlocks (w h : ℕ) : List (ℕ × ℕ) :=
  (evens h).flatMap (fun y => (evens w).map (fun x => (x, y)))

/-- Flat index of the LL write `(yOut * width + xOut) * 4` (line 173). -/
def llIndex (w : ℕ) (xOut yOut : ℕ) : ℕ := (yOut * w + xOut) * 4

/-- Flat index of the LH write `(yOut * width + (xOut + halfW)) * 4`
(line 177). -/
def lhIndex (w halfW : ℕ) (xOut yOut : ℕ) : ℕ := (yOut * w + (xOut + halfW)) * 4

/-- Flat index of the HL write `((yOut + halfH) * width + xOut) * 4`
(line 181). -/
def hlIndex (w halfH : ℕ) (xOut yOut : ℕ) : ℕ := ((yOut + halfH) * w + xOut) * 4

/-- Flat index of the HH write (line 185). -/
def hhIndex (w halfW halfH : ℕ) (xOut yOut : ℕ) : ℕ :=
  ((yOut + halfH) * w + (xOut + halfW)) * 4

/-- `output[idx] = output[idx+1] = output[idx+2] = v; output[idx+3] = 255`. -/
def writeGray (out : List ℤ) (idx : ℕ) (v : ℤ) : List ℤ :=
  (((out.set idx v).set (idx + 1) v).set (idx + 2) v).set (idx + 3) 255

/-- One iteration of the wavelet block loop (lines 146-187): read the 2x2
block at `(x, y)` through clamped sampling, form the Haar coefficients, and
write them into the four quadrants. -/
noncomputable def waveletWrite (w h halfW halfH : ℕ) (src : List ℤ)
    (out : List ℤ) (blk : ℕ × ℕ) : List ℤ :=
  let x := blk.1
  let y := blk.2
  let p1 := getGray src (getPixelIndex w h (x : ℤ) (y : ℤ))
  let p2 := getGray src (getPixelIndex w h ((x : ℤ) + 1) (y : ℤ))
  let p3 := getGray src (getPixelIndex w h (x : ℤ) ((y : ℤ) + 1))
  let p4 := getGray src (getPixelIndex w h ((x : ℤ) + 1) ((y : ℤ) + 1))
  let LL := (p1 + p2 + p3 + p4) / 4
  let LH := (p1 + p2 - p3 - p4) / 4 + 128
  let HL := (p1 - p2 + p3 - p4) / 4 + 128
  let HH := (p1 - p2 - p3 + p4) / 4 + 128
  let xOut := x / 2
  let yOut := y / 2
  let out1 := writeGray out (llIndex w xOut yOut) (toByte LL)
  let out2 := writeGray out1 (lhIndex w halfW xOut yOut) (toByte LH)
  let out3 := writeGray out2 (hlIndex w halfH xOut yOut) (toByte HL)
  writeGray out3 (hhIndex w halfW halfH xOut yOut) (toByte HH)

/-- The wavelet branch (lines 139-188): fold the block writes over the fresh
all-zero `createImageData` buffer. -/
noncomputable def waveletData (w h : ℕ) (src : List ℤ) : List ℤ :=
  (waveletBlocks w h).foldl (waveletWrite w h (w / 2) (h / 2) src)
    (List.replicate (4 * (w * h)) 0)

/-- The six selectors of the per-pixel branch (line 52-54 condition). -/
def isPointType : ViewType → Bool
  | ViewType.GRAYSCALE | ViewType.HEATMAP | ViewType.XRAY
  | ViewType.ECO | ViewType.BINARY | ViewType.HSV => true
  | _ => false

/-- The seven selectors of the convolution/structural branch (line 130-133
condition). -/
def isConvType : ViewType → Bool
  | ViewType.SKELETON | ViewType.BLUEPRINT | ViewType.GRADIENT_MAGNITUDE
  | ViewType.GRADIENT_DIRECTION | ViewType.ZERO_CROSSING
  | ViewType.FEATURE_MAP | ViewType.WAVELET => true
  | _ => false

/-- The render entry point (`img.onload`, lines 24-321): `ORIGINAL` leaves
the drawn source untouched; the per-pixel branch rewrites the pixel array in
place; the structural branch writes a freshly allocated output buffer, with
`WAVELET` special-cased inside it. -/
noncomputable def render (S : RasterBuffer) (t : ViewType) : RasterBuffer :=
  if t = ViewType.ORIGINAL then S
  else if isPointType t then ⟨S.width, S.height, pointData t S.data⟩
  else if isConvType t then
    if t = ViewType.WAVELET then
      ⟨S.width, S.height, waveletData S.width S.height S.data⟩
    else ⟨S.width, S.height, convData t S.width S.height S.data⟩
  else S

/-! ## Basic evaluation lemmas -/

lemma jsRound_intCast (n : ℤ) : jsRound ((n : ℤ) : ℝ) = n := by
  unfold jsRound
  rw [Int.fract_intCast]
  norm_num

lemma toByte_intCast (n : ℤ) (h0 : 0 ≤ n) (h1 : n ≤ 255) : toByte ((n : ℤ) : ℝ) = n := by
  unfold toByte
  rw [jsRound_intCast]
  omega

lemma toByte_nonneg (v : ℝ) : 0 ≤ toByte v := le_max_left _ _

lemma toByte_le (v : ℝ) : toByte v ≤ 255 := by
  unfold toByte
  have : min 255 (jsRound v) ≤ 255 := min_le_left _ _
  omega

lemma toByte_natCast (n : ℕ) (h1 : n ≤ 255) : toByte ((n : ℕ) : ℝ) = n := by
  have := toByte_intCast n (by omega) (by omega)
  push_cast at this ⊢
  exact this

/-- The clamped index primitive always lands on a valid pixel: there are
clamped coordinates `cx < width`, `cy < height` such that the returned flat
index is `(cy * width + cx) * 4`. -/
lemma getPixelIndex_spec (w h : ℕ) (x y : ℤ) (hw : 1 ≤ w) (hh : 1 ≤ h) :
    ∃ cx cy : ℕ, cx < w ∧ cy < h ∧
      getPixelIndex w h x y = (cy * w + cx) * 4 ∧
      (cx : ℤ) = max 0 (min ((w : ℤ) - 1) x) ∧
      (cy : ℤ) = max 0 (min ((h : ℤ) - 1) y) := by
  have hw' : (1 : ℤ) ≤ (w : ℤ) := by exact_mod_cast hw
  have hh' : (1 : ℤ) ≤ (h : ℤ) := by exact_mod_cast hh
  set cxZ := max 0 (min ((w : ℤ) - 1) x) with hcxd
  set cyZ := max 0 (min ((h : ℤ) - 1) y) with hcyd
  have hcx0 : 0 ≤ cxZ := le_max_left _ _
  have hcy0 : 0 ≤ cyZ := le_max_left _ _
  have hcxle : cxZ ≤ (w : ℤ) - 1 := max_le (by omega) (min_le_left _ _)
  have hcyle : cyZ ≤ (h : ℤ) - 1 := max_le (by omega) (min_le_left _ _)
  refine ⟨cxZ.toNat, cyZ.toNat, by omega, by omega, ?_, by omega, by omega⟩
  have hrw : (cyZ * (w : ℤ) + cxZ) * 4
      = (((cyZ.toNat * w + cxZ.toNat) * 4 : ℕ) : ℤ) := by
    push_cast [Int.toNat_of_nonneg hcx0, Int.toNat_of_nonneg hcy0]
    ring
  simp only [getPixelIndex, ← hcxd, ← hcyd, hrw, Int.toNat_natCast]

/-- On a 1x1 source the clamped index is always 0, the single pixel. -/
lemma getPixelIndex_one_one (x y : ℤ) : getPixelIndex 1 1 x y = 0 := by
  obtain ⟨cx, cy, hcx, hcy, hidx, -, -⟩ := getPixelIndex_spec 1 1 x y le_rfl le_rfl
  interval_cases cx
  interval_cases cy
  simpa using hidx

/-! ## Claim theorems: identity, determinism, clamped sampling -/

/-- Claim C5 — `render(S, Original)` returns the source buffer unchanged:
same width, same height, every RGBA byte identical (the `ORIGINAL` early
return at line 33 leaves the drawn source on the canvas). -/
theorem c5_original_identity (S : RasterBuffer) : render S ViewType.ORIGINAL = S := by
  simp [render]

/-- Claim C7 — `render` is a pure, deterministic function of the source
buffer and the selector: runs on equal inputs produce equal (byte-identical)
outputs.  The embedded render body reads no state other than its two
arguments. -/
theorem c7_deterministic (S₁ S₂ : RasterBuffer) (t₁ t₂ : ViewType)
    (hS : S₁ = S₂) (ht : t₁ = t₂) : render S₁ t₁ = render S₂ t₂ := by
  rw [hS, ht]

theorem c7_deterministic_witness :
    render ⟨1, 1, [5, 6, 7, 255]⟩ ViewType.GRAYSCALE
      = render ⟨1, 1, [5, 6, 7, 255]⟩ ViewType.GRAYSCALE :=
  c7_deterministic ⟨1, 1, [5, 6, 7, 255]⟩ ⟨1, 1, [5, 6, 7, 255]⟩
    ViewType.GRAYSCALE ViewType.GRAYSCALE rfl rfl

/-- Claim C6 — `getPixelIndex` clamps `x` to `[0, width-1]` and `y` to
`[0, height-1]` independently and returns the flat index of the clamped
coordinate, which always addresses a pixel inside the buffer (no
out-of-bounds access); hence on a 1x1 source every sample, at any offset,
reads the single pixel's value. -/
theorem c6_clamped_sampling (w h : ℕ) (x y : ℤ) (src : List ℤ)
    (hw : 1 ≤ w) (hh : 1 ≤ h) :
    (∃ cx cy : ℕ, cx ≤ w - 1 ∧ cy ≤ h - 1 ∧
      (cx : ℤ) = max 0 (min ((w : ℤ) - 1) x) ∧
      (cy : ℤ) = max 0 (min ((h : ℤ) - 1) y) ∧
      getPixelIndex w h x y = (cy * w + cx) * 4 ∧
      getPixelIndex w h x y + 3 < 4 * (w * h)) ∧
    (w = 1 → h = 1 → getGray src (getPixelIndex w h x y) = getGray src 0) := by
  obtain ⟨cx, cy, hcx, hcy, hidx, hcxe, hcye⟩ := getPixelIndex_spec w h x y hw hh
  constructor
  · refine ⟨cx, cy, by omega, by omega, hcxe, hcye, hidx, ?_⟩
    have : cy * w + cx < w * h := by
      calc cy * w + cx < cy * w + w := by omega
        _ = (cy + 1) * w := by ring
        _ ≤ h * w := Nat.mul_le_mul_right w (by omega)
        _ = w * h := Nat.mul_comm h w
    omega
  · intro hw1 hh1
    subst hw1 hh1
    rw [getPixelIndex_one_one]

theorem c6_clamped_sampling_witness :
    (∃ cx cy : ℕ, cx ≤ 1 - 1 ∧ cy ≤ 1 - 1 ∧
      (cx : ℤ) = max 0 (min ((1 : ℤ) - 1) 7) ∧
      (cy : ℤ) = max 0 (min ((1 : ℤ) - 1) (-2)) ∧
      getPixelIndex 1 1 7 (-2) = (cy * 1 + cx) * 4 ∧
      getPixelIndex 1 1 7 (-2) + 3 < 4 * (1 * 1)) ∧
    (1 = 1 → 1 = 1 →
      getGray [9, 8, 7, 255] (getPixelIndex 1 1 7 (-2)) = getGray [9, 8, 7, 255] 0) :=
  c6_clamped_sampling 1 1 7 (-2) [9, 8, 7, 255] le_rfl le_rfl

/-! ## Claim C4: the Haar wavelet worked example -/

/-- Claim C4 — on the 2x2 source whose four pixels are gray levels
`100, 150, 50, 200` (so the block luminances are `p1=100, p2=150, p3=50,
p4=200`), the Wavelet view computes exactly `LL=125, LH=128, HL=78,
HH=153` via `LL=(p1+p2+p3+p4)/4`, `LH=(p1+p2-p3-p4)/4+128`,
`HL=(p1-p2+p3-p4)/4+128`, `HH=(p1-p2-p3+p4)/4+128`, laid out in the four
quadrants. -/
theorem c4_wavelet_example :
    render ⟨2, 2, [100, 100, 100, 255, 150, 150, 150, 255,
                   50, 50, 50, 255, 200, 200, 200, 255]⟩ ViewType.WAVELET
      = ⟨2, 2, [125, 125, 125, 255, 128, 128, 128, 255,
                78, 78, 78, 255, 153, 153, 153, 255]⟩ := by
  have hb : waveletBlocks 2 2 = [(0, 0)] := by decide
  have hi1 : getPixelIndex 2 2 0 0 = 0 := by decide
  have hi2 : getPixelIndex 2 2 1 0 = 4 := by decide
  have hi3 : getPixelIndex 2 2 0 1 = 8 := by decide
  have hi4 : getPixelIndex 2 2 1 1 = 12 := by decide
  have hg1 : getGray [100, 100, 100, 255, 150, 150, 150, 255,
      50, 50, 50, 255, 200, 200, 200, 255] 0 = 100 := by
    norm_num [getGray, dAt]
  have hg2 : getGray [100, 100, 100, 255, 150, 150, 150, 255,
      50, 50, 50, 255, 200, 200, 200, 255] 4 = 150 := by
    norm_num [getGray, dAt]
  have hg3 : getGray [100, 100, 100, 255, 150, 150, 150, 255,
      50, 50, 50, 255, 200, 200, 200, 255] 8 = 50 := by
    norm_num [getGray, dAt]
  have hg4 : getGray [100, 100, 100, 255, 150, 150, 150, 255,
      50, 50, 50, 255, 200, 200, 200, 255] 12 = 200 := by
    norm_num [getGray, dAt]
  have h125 : toByte (125 : ℝ) = 125 := by
    rw [show (125 : ℝ) = ((125 : ℤ) : ℝ) by norm_num]
    exact toByte_intCast _ (by norm_num) (by norm_num)
  have h128 : toByte (128 : ℝ) = 128 := by
    rw [show (128 : ℝ) = ((128 : ℤ) : ℝ) by norm_num]
    exact toByte_intCast _ (by norm_num) (by norm_num)
  have h78 : toByte (78 : ℝ) = 78 := by
    rw [show (78 : ℝ) = ((78 : ℤ) : ℝ) by norm_num]
    exact toByte_intCast _ (by norm_num) (by norm_num)
  have h153 : toByte (153 : ℝ) = 153 := by
    rw [show (153 : ℝ) = ((153 : ℤ) : ℝ) by norm_num]
    exact toByte_intCast _ (by norm_num) (by norm_num)
  simp only [render, reduceIte, isPointType, isConvType, Bool.false_eq_true,
    if_false, if_true]
  rw [waveletData, hb]
  simp only [List.foldl, waveletWrite]
  norm_num [hi1, hi2, hi3, hi4, hg1, hg2, hg3, hg4]
  norm_num [h125, h128, h78, h153]
  decide

/-! ## Claim C8: heatmap color anchors -/

/-- Claim C8 — in the Heatmap view a pixel of luminance 0 becomes pure blue
`(0,0,255)`, a pixel of luminance 255 becomes pure red `(255,0,0)`, and a
pixel of luminance 127 or 128 becomes a color whose green channel strictly
exceeds both its red and its blue channel. -/
theorem c8_heatmap_anchors (r g b a : ℤ) :
    (0.299 * (r : ℝ) + 0.587 * (g : ℝ) + 0.114 * (b : ℝ) = 0 →
        pointPixel ViewType.HEATMAP r g b a = [0, 0, 255, a]) ∧
    (0.299 * (r : ℝ) + 0.587 * (g : ℝ) + 0.114 * (b : ℝ) = 255 →
        pointPixel ViewType.HEATMAP r g b a = [255, 0, 0, a]) ∧
    (0.299 * (r : ℝ) + 0.587 * (g : ℝ) + 0.114 * (b : ℝ) = 127 →
        (pointPixel ViewType.HEATMAP r g b a).getD 0 0
            < (pointPixel ViewType.HEATMAP r g b a).getD 1 0 ∧
        (pointPixel ViewType.HEATMAP r g b a).getD 2 0
            < (pointPixel ViewType.HEATMAP r g b a).getD 1 0) ∧
    (0.299 * (r : ℝ) + 0.587 * (g : ℝ) + 0.114 * (b : ℝ) = 128 →
        (pointPixel ViewType.HEATMAP r g b a).getD 0 0
            < (pointPixel ViewType.HEATMAP r g b a).getD 1 0 ∧
        (pointPixel ViewType.HEATMAP r g b a).getD 2 0
            < (pointPixel ViewType.HEATMAP r g b a).getD 1 0) := by
  have h0 : toByte (0 : ℝ) = 0 := by
    rw [show (0 : ℝ) = ((0 : ℤ) : ℝ) by norm_num]
    exact toByte_intCast _ (by norm_num) (by norm_num)
  have h1 : toByte (1 : ℝ) = 1 := by
    rw [show (1 : ℝ) = ((1 : ℤ) : ℝ) by norm_num]
    exact toByte_intCast _ (by norm_num) (by norm_num)
  have h254 : toByte (254 : ℝ) = 254 := by
    rw [show (254 : ℝ) = ((254 : ℤ) : ℝ) by norm_num]
    exact toByte_intCast _ (by norm_num) (by norm_num)
  have h255 : toByte (255 : ℝ) = 255 := by
    rw [show (255 : ℝ) = ((255 : ℤ) : ℝ) by norm_num]
    exact toByte_intCast _ (by norm_num) (by norm_num)
  refine ⟨fun h => ?_, fun h => ?_, fun h => ?_, fun h => ?_⟩ <;>
    simp only [pointPixel] <;> rw [h] <;> norm_num [h0, h1, h254, h255]

theorem c8_heatmap_anchors_witness :
    pointPixel ViewType.HEATMAP 0 0 0 77 = [0, 0, 255, 77] ∧
    pointPixel ViewType.HEATMAP 255 255 255 9 = [255, 0, 0, 9] ∧
    ((pointPixel ViewType.HEATMAP 127 127 127 4).getD 0 0
        < (pointPixel ViewType.HEATMAP 127 127 127 4).getD 1 0 ∧
      (pointPixel ViewType.HEATMAP 127 127 127 4).getD 2 0
        < (pointPixel ViewType.HEATMAP 127 127 127 4).getD 1 0) ∧
    ((pointPixel ViewType.HEATMAP 128 128 128 4).getD 0 0
        < (pointPixel ViewType.HEATMAP 128 128 128 4).getD 1 0 ∧
      (pointPixel ViewType.HEATMAP 128 128 128 4).getD 2 0
        < (pointPixel ViewType.HEATMAP 128 128 128 4).getD 1 0) :=
  ⟨(c8_heatmap_anchors 0 0 0 77).1 (by norm_num),
   (c8_heatmap_anchors 255 255 255 9).2.1 (by norm_num),
   (c8_heatmap_anchors 127 127 127 4).2.2.1 (by norm_num),
   (c8_heatmap_anchors 128 128 128 4).2.2.2 (by norm_num)⟩

/-! ## Claim C9: skeleton is thresholded gradient magnitude -/

lemma toByte_zero : toByte (0 : ℝ) = 0 := by
  rw [show (0 : ℝ) = ((0 : ℤ) : ℝ) by norm_num]
  exact toByte_intCast _ (by norm_num) (by norm_num)

lemma sobelMagnitude_eq (w h : ℕ) (src : List ℤ) (x y : ℤ) :
    Real.sqrt (sobelGx w h src x y * sobelGx w h src x y
      + sobelGy w h src x y * sobelGy w h src x y) = sobelMagnitude w h src x y := rfl

/-- Claim C9 — at every pixel, the Skeleton view writes exactly the bytes of
the GradientMagnitude view whenever the Sobel magnitude exceeds 50, and
writes zero on all three color channels whenever the magnitude is at most
50. -/
theorem c9_skeleton_threshold (w h : ℕ) (src : List ℤ) (x y : ℤ) :
    (50 < sobelMagnitude w h src x y →
      convPixel ViewType.SKELETON w h src x y
        = convPixel ViewType.GRADIENT_MAGNITUDE w h src x y) ∧
    (sobelMagnitude w h src x y ≤ 50 →
      convPixel ViewType.SKELETON w h src x y = [0, 0, 0, 255]) := by
  constructor
  · intro hm
    simp only [convPixel, sobelMagnitude_eq, reduceCtorEq, if_false, if_true,
      or_true, true_or, or_false, false_or, if_pos, ite_true, ite_false]
    rw [if_pos hm]
  · intro hm
    simp only [convPixel, sobelMagnitude_eq, reduceCtorEq, if_false, if_true,
      or_true, true_or, or_false, false_or, ite_true, ite_false]
    rw [if_neg (not_lt.mpr hm)]
    simp [toByte_zero]

theorem c9_skeleton_threshold_witness :
    (convPixel ViewType.SKELETON 2 1 [0, 0, 0, 255, 100, 100, 100, 255] 0 0
      = convPixel ViewType.GRADIENT_MAGNITUDE 2 1 [0, 0, 0, 255, 100, 100, 100, 255] 0 0) ∧
    (convPixel ViewType.SKELETON 1 1 [0, 0, 0, 255] 0 0 = [0, 0, 0, 255]) := by
  have hmag : sobelMagnitude 2 1 [0, 0, 0, 255, 100, 100, 100, 255] 0 0 = 400 := by
    have hA : getPixelIndex 2 1 (-1) (-1) = 0 := by decide
    have hB : getPixelIndex 2 1 1 (-1) = 4 := by decide
    have hC : getPixelIndex 2 1 (-1) 0 = 0 := by decide
    have hD : getPixelIndex 2 1 1 0 = 4 := by decide
    have hE : getPixelIndex 2 1 (-1) 1 = 0 := by decide
    have hF : getPixelIndex 2 1 1 1 = 4 := by decide
    have hG : getPixelIndex 2 1 0 (-1) = 0 := by decide
    have hH : getPixelIndex 2 1 0 1 = 0 := by decide
    have hg0 : getGray [0, 0, 0, 255, 100, 100, 100, 255] 0 = 0 := by
      norm_num [getGray, dAt]
    have hg4 : getGray [0, 0, 0, 255, 100, 100, 100, 255] 4 = 100 := by
      norm_num [getGray, dAt]
    rw [sobelMagnitude, sobelGx, sobelGy]
    simp only [show ((0 : ℤ) - 1) = -1 by norm_num, show ((0 : ℤ) + 1) = 1 by norm_num]
    rw [hA, hB, hC, hD, hE, hF, hG, hH, hg0, hg4]
    rw [show (-1 * 0 + 1 * (100 : ℝ) + -2 * 0 + 2 * 100 + -1 * 0 + 1 * 100)
          * (-1 * 0 + 1 * (100 : ℝ) + -2 * 0 + 2 * 100 + -1 * 0 + 1 * 100)
        + (-1 * 0 + -2 * 0 + -1 * (100 : ℝ) + 1 * 0 + 2 * 0 + 1 * 100)
          * (-1 * 0 + -2 * 0 + -1 * (100 : ℝ) + 1 * 0 + 2 * 0 + 1 * 100)
        = 400 ^ 2 by norm_num]
    exact Real.sqrt_sq (by norm_num)
  have hmag0 : sobelMagnitude 1 1 [0, 0, 0, 255] 0 0 = 0 := by
    have hg0 : getGray [0, 0, 0, 255] 0 = 0 := by norm_num [getGray, dAt]
    rw [sobelMagnitude, sobelGx, sobelGy]
    simp only [show ((0 : ℤ) - 1) = -1 by norm_num, show ((0 : ℤ) + 1) = 1 by norm_num]
    rw [getPixelIndex_one_one, getPixelIndex_one_one, getPixelIndex_one_one,
      getPixelIndex_one_one, getPixelIndex_one_one, getPixelIndex_one_one,
      getPixelIndex_one_one, getPixelIndex_one_one, hg0]
    rw [show (-1 * (0 : ℝ) + 1 * 0 + -2 * 0 + 2 * 0 + -1 * 0 + 1 * 0)
          * (-1 * (0 : ℝ) + 1 * 0 + -2 * 0 + 2 * 0 + -1 * 0 + 1 * 0)
        + (-1 * (0 : ℝ) + -2 * 0 + -1 * 0 + 1 * 0 + 2 * 0 + 1 * 0)
          * (-1 * (0 : ℝ) + -2 * 0 + -1 * 0 + 1 * 0 + 2 * 0 + 1 * 0) = 0 by norm_num]
    exact Real.sqrt_zero
  exact ⟨(c9_skeleton_threshold 2 1 [0, 0, 0, 255, 100, 100, 100, 255] 0 0).1
      (by rw [hmag]; norm_num),
    (c9_skeleton_threshold 1 1 [0, 0, 0, 255] 0 0).2 (by rw [hmag0]; norm_num)⟩

/-! ## Indexing the convolution output -/

lemma flatMap_length_const {f : ℕ → List ℤ} {n : ℕ} (hn : ∀ b, (f b).length = n) :
    ∀ l : List ℕ, (l.flatMap f).length = n * l.length := by
  intro l
  induction l with
  | nil => simp
  | cons b bs ih =>
      rw [List.flatMap_cons, List.length_append, hn, ih, List.length_cons,
        Nat.mul_succ]
      omega

lemma flatMap_getD_const {f : ℕ → List ℤ} {n : ℕ} (hn : ∀ b, (f b).length = n) :
    ∀ (l : List ℕ) (i c : ℕ), i < l.length → c < n →
      (l.flatMap f).getD (n * i + c) 0 = (f (l.getD i 0)).getD c 0 := by
  intro l
  induction l with
  | nil => intro i c hi _; simp at hi
  | cons b bs ih =>
      intro i c hi hc
      rw [List.flatMap_cons]
      cases i with
      | zero =>
          rw [Nat.mul_zero, Nat.zero_add,
            List.getD_append _ _ _ _ (by rw [hn]; omega)]
          simp
      | succ i =>
          rw [List.getD_append_right _ _ _ _ (by rw [hn, Nat.mul_succ]; omega)]
          rw [hn, show n * (i + 1) + c - n = n * i + c by rw [Nat.mul_succ]; omega]
          rw [ih i c (by simpa using hi) hc]
          simp

lemma convPixel_length (t : ViewType) (w h : ℕ) (src : List ℤ) (x y : ℤ) :
    (convPixel t w h src x y).length = 4 := by
  unfold convPixel
  split_ifs <;> try simp
  all_goals split <;> simp

/-- Entry `c` of the output pixel `(x, y)` of the convolution branch is
entry `c` of `convPixel` at `(x, y)`. -/
lemma convData_getD (t : ViewType) (w h : ℕ) (src : List ℤ) (x y c : ℕ)
    (hx : x < w) (hy : y < h) (hc : c < 4) :
    (convData t w h src).getD (4 * (y * w + x) + c) 0
      = (convPixel t w h src (x : ℤ) (y : ℤ)).getD c 0 := by
  unfold convData
  have hpix : ∀ b : ℕ, ∀ yv : ℤ, (convPixel t w h src (b : ℤ) yv).length = 4 :=
    fun b yv => convPixel_length t w h src (b : ℤ) yv
  have hrow : ∀ b : ℕ,
      ((List.range w).flatMap (fun x => convPixel t w h src (x : ℤ) (b : ℤ))).length
        = 4 * w := by
    intro b
    rw [flatMap_length_const (fun x => hpix x (b : ℤ)), List.length_range]
  have houter := flatMap_getD_const hrow (List.range h) y (4 * x + c)
    (by simpa using hy) (by omega)
  rw [show 4 * (y * w + x) + c = 4 * w * y + (4 * x + c) by ring, houter]
  have hyv : (List.range h).getD y 0 = y := by
    rw [List.getD_eq_getElem _ _ (by simpa using hy)]
    simp
  rw [hyv]
  have hinner := flatMap_getD_const (fun b => hpix b (y : ℤ)) (List.range w) x c
    (by simpa using hx) hc
  rw [hinner]
  have hxv : (List.range w).getD x 0 = x := by
    rw [List.getD_eq_getElem _ _ (by simpa using hx)]
    simp
  rw [hxv]

/-! ## Claim C2: flat-field responses -/

/-- A source whose pixels all carry the same RGB color `(r, g, b)`. -/
def Uniform (S : RasterBuffer) (r g b : ℤ) : Prop :=
  S.data.length = 4 * (S.width * S.height) ∧
  ∀ k, k < S.width * S.height →
    S.data.getD (4 * k) 0 = r ∧ S.data.getD (4 * k + 1) 0 = g ∧
      S.data.getD (4 * k + 2) 0 = b

instance (S : RasterBuffer) (r g b : ℤ) : Decidable (Uniform S r g b) := by
  unfold Uniform; infer_instance

/-- Every clamped sample of a uniform source has the same luminance. -/
lemma getGray_uniform (S : RasterBuffer) (r g b : ℤ) (hU : Uniform S r g b)
    (hw : 1 ≤ S.width) (hh : 1 ≤ S.height) (x y : ℤ) :
    getGray S.data (getPixelIndex S.width S.height x y)
      = 0.299 * (r : ℝ) + 0.587 * (g : ℝ) + 0.114 * (b : ℝ) := by
  obtain ⟨cx, cy, hcx, hcy, hidx, -, -⟩ :=
    getPixelIndex_spec S.width S.height x y hw hh
  have hk : cy * S.width + cx < S.width * S.height := by
    calc cy * S.width + cx < cy * S.width + S.width := by omega
      _ = (cy + 1) * S.width := by ring
      _ ≤ S.height * S.width := Nat.mul_le_mul_right _ (by omega)
      _ = S.width * S.height := Nat.mul_comm _ _
  obtain ⟨h1, h2, h3⟩ := hU.2 _ hk
  rw [getGray, hidx, dAt, dAt, dAt]
  rw [show (cy * S.width + cx) * 4 = 4 * (cy * S.width + cx) by ring]
  rw [h1, h2, h3]

lemma toByte_eval {v : ℝ} {n : ℤ} (hv : v = (n : ℝ)) (h0 : 0 ≤ n) (h1 : n ≤ 255) :
    toByte v = n := by
  rw [hv]; exact toByte_intCast n h0 h1

lemma render_point_eq (S : RasterBuffer) (t : ViewType) (h : isPointType t = true) :
    render S t = ⟨S.width, S.height, pointData t S.data⟩ := by
  have ht : t ≠ ViewType.ORIGINAL := by cases t <;> simp_all [isPointType]
  simp [render, ht, h]

lemma render_conv_eq (S : RasterBuffer) (t : ViewType) (h : isConvType t = true)
    (hW : t ≠ ViewType.WAVELET) :
    render S t = ⟨S.width, S.height, convData t S.width S.height S.data⟩ := by
  have h1 : t ≠ ViewType.ORIGINAL := by cases t <;> simp_all [isConvType]
  have h2 : isPointType t = false := by cases t <;> simp_all [isPointType, isConvType]
  simp [render, h1, h2, h, hW]

lemma render_wavelet_eq (S : RasterBuffer) :
    render S ViewType.WAVELET
      = ⟨S.width, S.height, waveletData S.width S.height S.data⟩ := by
  simp [render, isPointType, isConvType]

lemma render_point_data (S : RasterBuffer) (t : ViewType) (h : isPointType t = true) :
    (render S t).data = pointData t S.data := by
  rw [render_point_eq S t h]

lemma render_conv_data (S : RasterBuffer) (t : ViewType) (h : isConvType t = true)
    (hW : t ≠ ViewType.WAVELET) :
    (render S t).data = convData t S.width S.height S.data := by
  rw [render_conv_eq S t h hW]

lemma render_wavelet_data (S : RasterBuffer) :
    (render S ViewType.WAVELET).data = waveletData S.width S.height S.data := by
  rw [render_wavelet_eq S]

/-- Sobel `gx` vanishes on a uniform source. -/
lemma sobelGx_uniform (S : RasterBuffer) (r g b : ℤ) (hU : Uniform S r g b)
    (hw : 1 ≤ S.width) (hh : 1 ≤ S.height) (x y : ℤ) :
    sobelGx S.width S.height S.data x y = 0 := by
  unfold sobelGx
  simp only [getGray_uniform S r g b hU hw hh]
  ring

/-- Sobel `gy` vanishes on a uniform source. -/
lemma sobelGy_uniform (S : RasterBuffer) (r g b : ℤ) (hU : Uniform S r g b)
    (hw : 1 ≤ S.width) (hh : 1 ≤ S.height) (x y : ℤ) :
    sobelGy S.width S.height S.data x y = 0 := by
  unfold sobelGy
  simp only [getGray_uniform S r g b hU hw hh]
  ring

/-- Claim C2, counterexample — on the uniform (all-black) 1x1 source the
ZeroCrossing output pixel is `128`, not `0`: the Laplacian response is zero
but the view encodes it at the bias 128, so the claim that a uniform source
yields an all-zero ZeroCrossing output fails. -/
theorem c2_flat_field_counterexample :
    (render ⟨1, 1, [0, 0, 0, 255]⟩ ViewType.ZERO_CROSSING).data.getD 0 0 ≠ 0 := by
  rw [render_conv_data _ _ (by decide) (by decide)]
  have h := convData_getD ViewType.ZERO_CROSSING 1 1 [0, 0, 0, 255] 0 0 0
    (by norm_num) (by norm_num) (by norm_num)
  rw [show (4 * (0 * 1 + 0) + 0 : ℕ) = 0 by norm_num] at h
  rw [h]
  simp only [Nat.cast_zero]
  unfold convPixel
  simp only [reduceCtorEq, if_false, if_true, ite_true, ite_false, if_pos rfl]
  simp only [show ((0 : ℤ) - 1) = -1 by norm_num, show ((0 : ℤ) + 1) = 1 by norm_num,
    getPixelIndex_one_one]
  have hg : getGray [0, 0, 0, 255] 0 = 0 := by norm_num [getGray, dAt]
  rw [hg]
  have hval : toByte (max 0 (min 255 (128 + ((0 : ℝ) + 0 + 0 + 0 - 4 * 0) * 2))) = 128 :=
    toByte_eval (by norm_num) (by norm_num) (by norm_num)
  rw [hval]
  decide

/-- Claim C2, amended — a uniform-color source produces a GradientMagnitude
output whose RGB channels are all `0`, and a ZeroCrossing output whose RGB
channels are all `128` (the vanishing Laplacian response encoded at the
mid-gray bias), at every pixel. -/
theorem c2_flat_field_amended (S : RasterBuffer) (r g b : ℤ)
    (hU : Uniform S r g b) (hw : 1 ≤ S.width) (hh : 1 ≤ S.height)
    (x y c : ℕ) (hx : x < S.width) (hy : y < S.height) (hc : c < 3) :
    (render S ViewType.GRADIENT_MAGNITUDE).data.getD (4 * (y * S.width + x) + c) 0 = 0 ∧
    (render S ViewType.ZERO_CROSSING).data.getD (4 * (y * S.width + x) + c) 0 = 128 := by
  constructor
  · rw [render_conv_data _ _ (by decide) (by decide)]
    rw [convData_getD _ _ _ _ x y c hx hy (by omega)]
    unfold convPixel
    simp only [reduceCtorEq, if_false, if_true, ite_true, ite_false, or_false,
      false_or, true_or, or_true, if_pos rfl]
    rw [sobelGx_uniform S r g b hU hw hh, sobelGy_uniform S r g b hU hw hh]
    rw [show ((0 : ℝ) * 0 + 0 * 0) = 0 by norm_num, Real.sqrt_zero, toByte_zero]
    interval_cases c <;> decide
  · rw [render_conv_data _ _ (by decide) (by decide)]
    rw [convData_getD _ _ _ _ x y c hx hy (by omega)]
    unfold convPixel
    simp only [reduceCtorEq, if_false, if_true, ite_true, ite_false, if_pos rfl]
    simp only [getGray_uniform S r g b hU hw hh]
    have hval : toByte (max 0 (min 255 (128 +
        ((0.299 * (r : ℝ) + 0.587 * (g : ℝ) + 0.114 * (b : ℝ))
          + (0.299 * (r : ℝ) + 0.587 * (g : ℝ) + 0.114 * (b : ℝ))
          + (0.299 * (r : ℝ) + 0.587 * (g : ℝ) + 0.114 * (b : ℝ))
          + (0.299 * (r : ℝ) + 0.587 * (g : ℝ) + 0.114 * (b : ℝ))
          - 4 * (0.299 * (r : ℝ) + 0.587 * (g : ℝ) + 0.114 * (b : ℝ))) * 2))) = 128 :=
      toByte_eval (by push_cast; ring_nf; norm_num) (by norm_num) (by norm_num)
    rw [hval]
    interval_cases c <;> decide

theorem c2_flat_field_witness :
    ((render ⟨1, 1, [17, 35, 250, 9]⟩ ViewType.GRADIENT_MAGNITUDE).data.getD
        (4 * (0 * 1 + 0) + 0) 0 = 0) ∧
    ((render ⟨1, 1, [17, 35, 250, 9]⟩ ViewType.ZERO_CROSSING).data.getD
        (4 * (0 * 1 + 0) + 0) 0 = 128) :=
  c2_flat_field_amended ⟨1, 1, [17, 35, 250, 9]⟩ 17 35 250 (by decide)
    (by norm_num) (by norm_num) 0 0 0 (by norm_num) (by norm_num) (by norm_num)

/-! ## Claim C10: wavelet behavior on odd dimensions -/

lemma mem_evens (n k : ℕ) : k ∈ evens n ↔ k < n ∧ k % 2 = 0 := by
  simp [evens, List.mem_filter, List.mem_range]

/-- Claim C10 — with an odd width the wavelet block loop still runs (its
last iteration in each block row is `x = width-1`, an even number below
`width`), every quadrant write of every block stays inside the output
buffer (no error is possible), and the last block's LL write column
`(width-1)/2` equals `width/2 = halfW`, the first column of the LH
quadrant, so the LL and LH write regions overlap; symmetrically, with an
odd height the last block row's LL write row `(height-1)/2` equals
`height/2 = halfH`, the first row of the HL quadrant. -/
theorem c10_wavelet_odd_overlap (w h : ℕ) (hodd : w % 2 = 1) (hh : 1 ≤ h) :
    ((w - 1) ∈ evens w) ∧
    ((w - 1) / 2 = w / 2) ∧
    (∀ yOut : ℕ, llIndex w ((w - 1) / 2) yOut = lhIndex w (w / 2) 0 yOut) ∧
    (∀ hOdd : ℕ, hOdd % 2 = 1 → ∀ xOut : ℕ,
        llIndex w xOut ((hOdd - 1) / 2) = hlIndex w (hOdd / 2) xOut 0) ∧
    (∀ x y : ℕ, x ∈ evens w → y ∈ evens h →
        llIndex w (x / 2) (y / 2) + 3 < 4 * (w * h) ∧
        lhIndex w (w / 2) (x / 2) (y / 2) + 3 < 4 * (w * h) ∧
        hlIndex w (h / 2) (x / 2) (y / 2) + 3 < 4 * (w * h) ∧
        hhIndex w (w / 2) (h / 2) (x / 2) (y / 2) + 3 < 4 * (w * h)) := by
  have hw1 : 1 ≤ w := by omega
  refine ⟨(mem_evens w (w - 1)).mpr (by omega), by omega, ?_, ?_, ?_⟩
  · intro yOut
    unfold llIndex lhIndex
    congr 1
    omega
  · intro hOdd hOddP xOut
    unfold llIndex hlIndex
    have hrow : (hOdd - 1) / 2 = hOdd / 2 := by omega
    rw [hrow, Nat.zero_add]
  · intro x y hx hy
    rw [mem_evens] at hx hy
    have hcol : ∀ col row : ℕ, col < w → row < h → (row * w + col) * 4 + 3 < 4 * (w * h) := by
      intro col row hc hr
      have h1 : row * w + col < h * w :=
        calc row * w + col < row * w + w := by omega
          _ = (row + 1) * w := by ring
          _ ≤ h * w := Nat.mul_le_mul_right _ (by omega)
      have h2 : row * w + col < w * h := by rw [Nat.mul_comm w h]; exact h1
      omega
    refine ⟨?_, ?_, ?_, ?_⟩
    · unfold llIndex; exact hcol _ _ (by omega) (by omega)
    · unfold lhIndex; exact hcol _ _ (by omega) (by omega)
    · unfold hlIndex; exact hcol _ _ (by omega) (by omega)
    · unfold hhIndex; exact hcol _ _ (by omega) (by omega)

theorem c10_wavelet_odd_overlap_witness :
    ((3 - 1) ∈ evens 3) ∧
    ((3 - 1) / 2 = 3 / 2) ∧
    (∀ yOut : ℕ, llIndex 3 ((3 - 1) / 2) yOut = lhIndex 3 (3 / 2) 0 yOut) ∧
    (∀ hOdd : ℕ, hOdd % 2 = 1 → ∀ xOut : ℕ,
        llIndex 3 xOut ((hOdd - 1) / 2) = hlIndex 3 (hOdd / 2) xOut 0) ∧
    (∀ x y : ℕ, x ∈ evens 3 → y ∈ evens 2 →
        llIndex 3 (x / 2) (y / 2) + 3 < 4 * (3 * 2) ∧
        lhIndex 3 (3 / 2) (x / 2) (y / 2) + 3 < 4 * (3 * 2) ∧
        hlIndex 3 (2 / 2) (x / 2) (y / 2) + 3 < 4 * (3 * 2) ∧
        hhIndex 3 (3 / 2) (2 / 2) (x / 2) (y / 2) + 3 < 4 * (3 * 2)) :=
  c10_wavelet_odd_overlap 3 2 (by norm_num) (by norm_num)

/-! ## Claim C3: every stored channel byte is in range -/

lemma pointPixel_length (t : ViewType) (r g b a : ℤ) :
    (pointPixel t r g b a).length = 4 := by
  cases t <;> simp [pointPixel]

lemma pointPixel_bounded (t : ViewType) (r g b a : ℤ)
    (hr : 0 ≤ r ∧ r ≤ 255) (hg : 0 ≤ g ∧ g ≤ 255)
    (hb : 0 ≤ b ∧ b ≤ 255) (ha : 0 ≤ a ∧ a ≤ 255) :
    ∀ v ∈ pointPixel t r g b a, 0 ≤ v ∧ v ≤ 255 := by
  intro v hv
  cases t <;>
    simp only [pointPixel, List.mem_cons, List.not_mem_nil, or_false] at hv <;>
    rcases hv with rfl | rfl | rfl | rfl <;>
    first
      | exact ⟨toByte_nonneg _, toByte_le _⟩
      | exact hr
      | exact hg
      | exact hb
      | exact ha

lemma pointData_bounded (t : ViewType) :
    ∀ (n : ℕ) (d : List ℤ), d.length ≤ n → (∀ v ∈ d, 0 ≤ v ∧ v ≤ 255) →
      ∀ v ∈ pointData t d, 0 ≤ v ∧ v ≤ 255 := by
  intro n
  induction n with
  | zero =>
      intro d hlen hb v hv
      rcases d with _ | ⟨r, d⟩
      · simp [pointData] at hv
      · simp at hlen
  | succ n ih =>
      intro d hlen hb v hv
      rcases d with _ | ⟨r, _ | ⟨g, _ | ⟨b, _ | ⟨a, rest⟩⟩⟩⟩
      · simp [pointData] at hv
      · simp only [pointData] at hv
        exact hb v hv
      · simp only [pointData] at hv
        exact hb v hv
      · simp only [pointData] at hv
        exact hb v hv
      · simp only [pointData, List.mem_append] at hv
        rcases hv with hv | hv
        · exact pointPixel_bounded t r g b a (hb r (by simp)) (hb g (by simp))
            (hb b (by simp)) (hb a (by simp)) v hv
        · exact ih rest (by simp at hlen; omega)
            (fun u hu => hb u (by simp [hu])) v hv

lemma mem_ite_list {c : Prop} [Decidable c] {l1 l2 : List ℤ} {v : ℤ}
    (hv : v ∈ (if c then l1 else l2)) : v ∈ l1 ∨ v ∈ l2 := by
  split at hv
  · exact Or.inl hv
  · exact Or.inr hv

lemma convPixel_bounded (t : ViewType) (w h : ℕ) (src : List ℤ) (x y : ℤ) :
    ∀ v ∈ convPixel t w h src x y, 0 ≤ v ∧ v ≤ 255 := by
  intro v hv
  unfold convPixel at hv
  split_ifs at hv <;>
    first
      | (rcases mem_ite_list hv with hv | hv <;>
          simp only [List.mem_cons, List.not_mem_nil, or_false] at hv <;>
          rcases hv with rfl | rfl | rfl | rfl <;>
          first
            | exact ⟨toByte_nonneg _, toByte_le _⟩
            | norm_num)
      | (simp only [List.mem_cons, List.not_mem_nil, or_false] at hv
         rcases hv with rfl | rfl | rfl | rfl <;>
          first
            | exact ⟨toByte_nonneg _, toByte_le _⟩
            | norm_num)

lemma convData_bounded (t : ViewType) (w h : ℕ) (src : List ℤ) :
    ∀ v ∈ convData t w h src, 0 ≤ v ∧ v ≤ 255 := by
  intro v hv
  unfold convData at hv
  rw [List.mem_flatMap] at hv
  obtain ⟨y, -, hv⟩ := hv
  rw [List.mem_flatMap] at hv
  obtain ⟨x, -, hv⟩ := hv
  exact convPixel_bounded t w h src _ _ v hv

lemma writeGray_bounded (out : List ℤ) (idx : ℕ) (v : ℤ) (hv : 0 ≤ v ∧ v ≤ 255)
    (hb : ∀ u ∈ out, 0 ≤ u ∧ u ≤ 255) :
    ∀ u ∈ writeGray out idx v, 0 ≤ u ∧ u ≤ 255 := by
  intro u hu
  unfold writeGray at hu
  rcases List.mem_or_eq_of_mem_set hu with hu | rfl
  · rcases List.mem_or_eq_of_mem_set hu with hu | rfl
    · rcases List.mem_or_eq_of_mem_set hu with hu | rfl
      · rcases List.mem_or_eq_of_mem_set hu with hu | rfl
        · exact hb u hu
        · exact hv
      · exact hv
    · exact hv
  · norm_num

lemma waveletWrite_bounded (w h halfW halfH : ℕ) (src out : List ℤ) (blk : ℕ × ℕ)
    (hb : ∀ u ∈ out, 0 ≤ u ∧ u ≤ 255) :
    ∀ u ∈ waveletWrite w h halfW halfH src out blk, 0 ≤ u ∧ u ≤ 255 := by
  unfold waveletWrite
  apply writeGray_bounded _ _ _ ⟨toByte_nonneg _, toByte_le _⟩
  apply writeGray_bounded _ _ _ ⟨toByte_nonneg _, toByte_le _⟩
  apply writeGray_bounded _ _ _ ⟨toByte_nonneg _, toByte_le _⟩
  exact writeGray_bounded _ _ _ ⟨toByte_nonneg _, toByte_le _⟩ hb

lemma waveletFold_bounded (w h halfW halfH : ℕ) (src : List ℤ) :
    ∀ (l : List (ℕ × ℕ)) (out : List ℤ), (∀ u ∈ out, 0 ≤ u ∧ u ≤ 255) →
      ∀ u ∈ l.foldl (waveletWrite w h halfW halfH src) out, 0 ≤ u ∧ u ≤ 255 := by
  intro l
  induction l with
  | nil => intro out hb; simpa using hb
  | cons blk bs ih =>
      intro out hb
      rw [List.foldl_cons]
      exact ih _ (waveletWrite_bounded _ _ _ _ _ _ _ hb)

lemma waveletData_bounded (w h : ℕ) (src : List ℤ) :
    ∀ u ∈ waveletData w h src, 0 ≤ u ∧ u ≤ 255 := by
  unfold waveletData
  apply waveletFold_bounded
  intro u hu
  rw [List.mem_replicate] at hu
  omega

/-- Claim C3 — for every view and every well-formed source, every channel
byte stored in the rendered buffer lies in `[0, 255]`: each store goes
through the `Uint8ClampedArray` conversion `toByte` (so the Eco `G*1.2`
tint and Sobel magnitudes above 255 are clamped on narrowing), constants
are in range, and bytes inherited from the source are in range by
well-formedness. -/
theorem c3_output_range (S : RasterBuffer) (t : ViewType) (hWf : S.Wf) :
    ∀ v ∈ (render S t).data, 0 ≤ v ∧ v ≤ 255 := by
  unfold render
  split_ifs
  · exact hWf.2
  · exact pointData_bounded t S.data.length S.data le_rfl hWf.2
  · exact waveletData_bounded S.width S.height S.data
  · exact convData_bounded t S.width S.height S.data
  · exact hWf.2

theorem c3_output_range_witness :
    0 ≤ (render ⟨1, 1, [0, 255, 0, 255]⟩ ViewType.ECO).data.getD 1 0 ∧
      (render ⟨1, 1, [0, 255, 0, 255]⟩ ViewType.ECO).data.getD 1 0 ≤ 255 :=
  c3_output_range ⟨1, 1, [0, 255, 0, 255]⟩ ViewType.ECO (by decide) _ (by
    rw [render_point_data _ _ (by decide)]
    show (pointData ViewType.ECO [0, 255, 0, 255]).getD 1 0
      ∈ pointData ViewType.ECO [0, 255, 0, 255]
    have hlen : (pointData ViewType.ECO [0, 255, 0, 255]).length = 4 := by
      simp [pointData, pointPixel_length]
    rw [List.getD_eq_getElem _ _ (by omega)]
    exact List.getElem_mem _)

/-! ## Claim C1: alpha handling of the output -/

lemma getD_set (l : List ℤ) (i j : ℕ) (v : ℤ) :
    (l.set i v).getD j 0 = if i = j ∧ i < l.length then v else l.getD j 0 := by
  rw [List.getD_eq_getElem?_getD, List.getElem?_set, List.getD_eq_getElem?_getD]
  by_cases h1 : i = j
  · subst h1
    by_cases h2 : i < l.length
    · simp [h2]
    · have hnone : l[i]? = none := List.getElem?_eq_none (by omega)
      simp [h2, hnone]
  · simp [h1]

lemma writeGray_length (out : List ℤ) (idx : ℕ) (v : ℤ) :
    (writeGray out idx v).length = out.length := by
  simp [writeGray]

lemma writeGray_getD_alpha (out : List ℤ) (idx : ℕ) (v : ℤ) (j : ℕ)
    (hidx : idx % 4 = 0) (hj : j % 4 = 3) :
    (writeGray out idx v).getD j 0
      = if j = idx + 3 ∧ j < out.length then 255 else out.getD j 0 := by
  unfold writeGray
  rw [getD_set, getD_set, getD_set, getD_set]
  simp only [List.length_set]
  have h0 : ¬(idx = j) := by omega
  have h1 : ¬(idx + 1 = j) := by omega
  have h2 : ¬(idx + 2 = j) := by omega
  by_cases hc : idx + 3 = j ∧ idx + 3 < out.length
  · rw [if_pos hc, if_pos ⟨hc.1.symm, by omega⟩]
  · rw [if_neg hc, if_neg (fun hh => h2 hh.1), if_neg (fun hh => h1 hh.1),
      if_neg (fun hh => h0 hh.1), if_neg (fun hh => hc ⟨hh.1.symm, by omega⟩)]

lemma waveletWrite_length (w h halfW halfH : ℕ) (src out : List ℤ) (blk : ℕ × ℕ) :
    (waveletWrite w h halfW halfH src out blk).length = out.length := by
  unfold waveletWrite
  simp [writeGray_length]

lemma waveletFold_length (w h halfW halfH : ℕ) (src : List ℤ) :
    ∀ (l : List (ℕ × ℕ)) (out : List ℤ),
      (l.foldl (waveletWrite w h halfW halfH src) out).length = out.length := by
  intro l
  induction l with
  | nil => intro out; rfl
  | cons blk bs ih =>
      intro out
      rw [List.foldl_cons, ih, waveletWrite_length]

lemma waveletWrite_alpha_preserve (w h halfW halfH : ℕ) (src out : List ℤ)
    (blk : ℕ × ℕ) (j : ℕ) (hj : j % 4 = 3) (hp : out.getD j 0 = 255) :
    (waveletWrite w h halfW halfH src out blk).getD j 0 = 255 := by
  unfold waveletWrite
  rw [writeGray_getD_alpha _ _ _ _ (by simp [hhIndex, Nat.mul_mod_left]) hj,
    writeGray_getD_alpha _ _ _ _ (by simp [hlIndex, Nat.mul_mod_left]) hj,
    writeGray_getD_alpha _ _ _ _ (by simp [lhIndex, Nat.mul_mod_left]) hj,
    writeGray_getD_alpha _ _ _ _ (by simp [llIndex, Nat.mul_mod_left]) hj]
  split_ifs <;> first | rfl | exact hp

lemma waveletFold_alpha (w h halfW halfH : ℕ) (src : List ℤ) (j : ℕ)
    (hj : j % 4 = 3) :
    ∀ (l : List (ℕ × ℕ)) (out : List ℤ), out.getD j 0 = 255 →
      (l.foldl (waveletWrite w h halfW halfH src) out).getD j 0 = 255 := by
  intro l
  induction l with
  | nil => intro out hp; exact hp
  | cons blk bs ih =>
      intro out hp
      rw [List.foldl_cons]
      exact ih _ (waveletWrite_alpha_preserve w h halfW halfH src out blk j hj hp)

lemma waveletWrite_alpha_establish (w h halfW halfH : ℕ) (src out : List ℤ)
    (x y j : ℕ) (hj : j % 4 = 3) (hlen : j < out.length)
    (hcov : j = llIndex w (x / 2) (y / 2) + 3 ∨
            j = lhIndex w halfW (x / 2) (y / 2) + 3 ∨
            j = hlIndex w halfH (x / 2) (y / 2) + 3 ∨
            j = hhIndex w halfW halfH (x / 2) (y / 2) + 3) :
    (waveletWrite w h halfW halfH src out (x, y)).getD j 0 = 255 := by
  unfold waveletWrite
  rw [writeGray_getD_alpha _ _ _ _ (by simp [hhIndex, Nat.mul_mod_left]) hj,
    writeGray_getD_alpha _ _ _ _ (by simp [hlIndex, Nat.mul_mod_left]) hj,
    writeGray_getD_alpha _ _ _ _ (by simp [lhIndex, Nat.mul_mod_left]) hj,
    writeGray_getD_alpha _ _ _ _ (by simp [llIndex, Nat.mul_mod_left]) hj]
  simp only [writeGray_length, hlen, and_true]
  split_ifs with h1 h2 h3 h4 <;> first | rfl | tauto

lemma waveletBlocks_mem (w h x y : ℕ) (hx : x < w) (hx2 : x % 2 = 0)
    (hy : y < h) (hy2 : y % 2 = 0) : (x, y) ∈ waveletBlocks w h := by
  unfold waveletBlocks
  rw [List.mem_flatMap]
  exact ⟨y, (mem_evens h y).mpr ⟨hy, hy2⟩,
    List.mem_map.mpr ⟨x, (mem_evens w x).mpr ⟨hx, hx2⟩, rfl⟩⟩

/-- Every alpha position of the output is covered by one of the four
quadrant writes of some block of the wavelet loop. -/
lemma alpha_covered (w h j : ℕ) (hj : j % 4 = 3) (hlen : j < 4 * (w * h)) :
    ∃ x y : ℕ, (x, y) ∈ waveletBlocks w h ∧
      (j = llIndex w (x / 2) (y / 2) + 3 ∨
       j = lhIndex w (w / 2) (x / 2) (y / 2) + 3 ∨
       j = hlIndex w (h / 2) (x / 2) (y / 2) + 3 ∨
       j = hhIndex w (w / 2) (h / 2) (x / 2) (y / 2) + 3) := by
  have hwh : 0 < w * h := by omega
  have hw : 0 < w := by
    rcases Nat.eq_zero_or_pos w with h0 | h0
    · subst h0; simp at hwh
    · exact h0
  set q := j / 4 with hqd
  have hjq : j = 4 * q + 3 := by omega
  set col := q % w with hcold
  set row := q / w with hrowd
  have hqe : w * row + col = q := Nat.div_add_mod q w
  have hcolw : col < w := Nat.mod_lt _ hw
  have hqlt : q < w * h := by omega
  have hrowh : row < h := by
    rw [hrowd]
    exact (Nat.div_lt_iff_lt_mul hw).mpr (by rw [Nat.mul_comm h w]; exact hqlt)
  have hq4 : row * w + col = q := by rw [Nat.mul_comm row w]; exact hqe
  by_cases hc : col < (w + 1) / 2 <;> by_cases hr : row < (h + 1) / 2
  · refine ⟨2 * col, 2 * row, waveletBlocks_mem w h _ _ (by omega) (by omega)
      (by omega) (by omega), Or.inl ?_⟩
    rw [show 2 * col / 2 = col by omega, show 2 * row / 2 = row by omega,
      llIndex, hq4]
    omega
  · refine ⟨2 * col, 2 * (row - h / 2), waveletBlocks_mem w h _ _ (by omega)
      (by omega) (by omega) (by omega), Or.inr (Or.inr (Or.inl ?_))⟩
    rw [show 2 * col / 2 = col by omega,
      show 2 * (row - h / 2) / 2 = row - h / 2 by omega, hlIndex,
      show row - h / 2 + h / 2 = row by omega, hq4]
    omega
  · refine ⟨2 * (col - w / 2), 2 * row, waveletBlocks_mem w h _ _ (by omega)
      (by omega) (by omega) (by omega), Or.inr (Or.inl ?_)⟩
    rw [show 2 * (col - w / 2) / 2 = col - w / 2 by omega,
      show 2 * row / 2 = row by omega, lhIndex,
      show col - w / 2 + w / 2 = col by omega, hq4]
    omega
  · refine ⟨2 * (col - w / 2), 2 * (row - h / 2), waveletBlocks_mem w h _ _
      (by omega) (by omega) (by omega) (by omega),
      Or.inr (Or.inr (Or.inr ?_))⟩
    rw [show 2 * (col - w / 2) / 2 = col - w / 2 by omega,
      show 2 * (row - h / 2) / 2 = row - h / 2 by omega, hhIndex,
      show col - w / 2 + w / 2 = col by omega,
      show row - h / 2 + h / 2 = row by omega, hq4]
    omega

/-- Every alpha byte of the wavelet output is 255: some block write covers
the position and every later write preserves it. -/
lemma waveletData_alpha (w h : ℕ) (src : List ℤ) (j : ℕ)
    (hj : j % 4 = 3) (hlen : j < 4 * (w * h)) :
    (waveletData w h src).getD j 0 = 255 := by
  obtain ⟨x, y, hmem, hcov⟩ := alpha_covered w h j hj hlen
  obtain ⟨l1, l2, hsplit⟩ := List.append_of_mem hmem
  unfold waveletData
  rw [hsplit, List.foldl_append, List.foldl_cons]
  apply waveletFold_alpha w h (w / 2) (h / 2) src j hj
  apply waveletWrite_alpha_establish w h (w / 2) (h / 2) src _ x y j hj
  · rw [waveletFold_length, List.length_replicate]
    exact hlen
  · exact hcov

lemma pointPixel_alpha (t : ViewType) (r g b a : ℤ) :
    (pointPixel t r g b a).getD 3 0 = a := by
  cases t <;> simp [pointPixel, List.getD_cons_succ, List.getD_cons_zero]

lemma pointData_alpha (t : ViewType) :
    ∀ (n : ℕ) (d : List ℤ), d.length ≤ n → ∀ k : ℕ,
      (pointData t d).getD (4 * k + 3) 0 = d.getD (4 * k + 3) 0 := by
  intro n
  induction n with
  | zero =>
      intro d hlen k
      rcases d with _ | ⟨r, d⟩
      · simp [pointData]
      · simp at hlen
  | succ n ih =>
      intro d hlen k
      rcases d with _ | ⟨r, _ | ⟨g, _ | ⟨b, _ | ⟨a, rest⟩⟩⟩⟩
      · simp [pointData]
      · simp [pointData]
      · simp [pointData]
      · simp [pointData]
      · simp only [pointData]
        cases k with
        | zero =>
            rw [show 4 * 0 + 3 = 3 by norm_num]
            rw [List.getD_append _ _ _ _ (by rw [pointPixel_length]; norm_num)]
            rw [pointPixel_alpha]
            simp [List.getD_cons_succ, List.getD_cons_zero]
        | succ k =>
            rw [List.getD_append_right _ _ _ _ (by rw [pointPixel_length]; omega)]
            rw [pointPixel_length]
            rw [show 4 * (k + 1) + 3 - 4 = 4 * k + 3 by omega]
            rw [ih rest (by simp at hlen; omega) k]
            rw [show 4 * (k + 1) + 3 = 4 * k + 3 + 1 + 1 + 1 + 1 by omega]
            simp [List.getD_cons_succ]

lemma convPixel_alpha (t : ViewType) (w h : ℕ) (src : List ℤ) (x y : ℤ)
    (hc : isConvType t = true) (hW : t ≠ ViewType.WAVELET) :
    (convPixel t w h src x y).getD 3 0 = 255 := by
  cases t <;>
    first
      | (simp [isConvType] at hc; done)
      | exact absurd rfl hW
      | (unfold convPixel
         simp only [reduceCtorEq, if_false, if_true, ite_true, ite_false,
           or_false, false_or, true_or, or_true, eq_self_iff_true]
         first
           | (simp [List.getD_cons_succ, List.getD_cons_zero]; done)
           | (rw [apply_ite (fun l : List ℤ => List.getD l 3 0)]
              simp [List.getD_cons_succ, List.getD_cons_zero]))

/-- Claim C1, counterexample — the per-pixel filter loop never writes the
alpha byte: on a 1x1 source whose pixel has alpha 7, the Grayscale view
(a non-Original view) outputs alpha 7, not 255. -/
theorem c1_alpha_counterexample :
    (render ⟨1, 1, [0, 0, 0, 7]⟩ ViewType.GRAYSCALE).data.getD 3 0 ≠ 255 := by
  rw [render_point_data _ _ (by decide)]
  simp only [pointData, List.append_nil]
  rw [pointPixel_alpha]
  decide

/-- Claim C1, amended — alpha normalization holds exactly for the
structural branch: every convolution view and the wavelet view write alpha
255 at every output pixel; the six per-pixel views instead leave each
pixel's alpha byte unchanged from the source (so a transparent source stays
transparent there). -/
theorem c1_alpha_amended (S : RasterBuffer) (t : ViewType) :
    (isConvType t = true → t ≠ ViewType.WAVELET →
      ∀ x y : ℕ, x < S.width → y < S.height →
        (render S t).data.getD (4 * (y * S.width + x) + 3) 0 = 255) ∧
    (∀ j : ℕ, j % 4 = 3 → j < 4 * (S.width * S.height) →
      (render S ViewType.WAVELET).data.getD j 0 = 255) ∧
    (isPointType t = true → ∀ k : ℕ,
      (render S t).data.getD (4 * k + 3) 0 = S.data.getD (4 * k + 3) 0) := by
  refine ⟨?_, ?_, ?_⟩
  · intro hc hW x y hx hy
    rw [render_conv_data _ _ hc hW,
      convData_getD _ _ _ _ x y 3 hx hy (by norm_num)]
    exact convPixel_alpha t _ _ _ _ _ hc hW
  · intro j hj hlen
    rw [render_wavelet_data]
    exact waveletData_alpha _ _ _ _ hj hlen
  · intro hp k
    rw [render_point_data _ _ hp]
    exact pointData_alpha t S.data.length S.data le_rfl k

theorem c1_alpha_amended_witness :
    ((render ⟨1, 1, [3, 4, 5, 6]⟩ ViewType.GRADIENT_MAGNITUDE).data.getD
        (4 * (0 * 1 + 0) + 3) 0 = 255) ∧
    ((render ⟨1, 1, [3, 4, 5, 6]⟩ ViewType.WAVELET).data.getD 3 0 = 255) ∧
    ((render ⟨1, 1, [3, 4, 5, 6]⟩ ViewType.GRAYSCALE).data.getD (4 * 0 + 3) 0
        = ([3, 4, 5, 6] : List ℤ).getD (4 * 0 + 3) 0) :=
  ⟨(c1_alpha_amended ⟨1, 1, [3, 4, 5, 6]⟩ ViewType.GRADIENT_MAGNITUDE).1
      (by decide) (by decide) 0 0 (by norm_num) (by norm_num),
   (c1_alpha_amended ⟨1, 1, [3, 4, 5, 6]⟩ ViewType.GRADIENT_MAGNITUDE).2.1 3
      (by norm_num) (by norm_num),
   (c1_alpha_amended ⟨1, 1, [3, 4, 5, 6]⟩ ViewType.GRAYSCALE).2.2 (by decide) 0⟩

end LeafLens
